import Mathlib

set_option maxHeartbeats 1000000

/-!
Verification of the Citra PICA vertex-shader JIT back-end
(src/video_core/shader/shader_jit_x64.cpp) and the shader dispatch layer
(Setup / Run / Shutdown).

The SSE packed-float lanes the JIT operates on are modelled in two ways:
at the value level (`F32V`, a binary32 value as NaN, a signed infinity, or a
finite rational) and, where the emitted code manipulates raw bits (ANDPS with
a constant, XORPS with the sign mask), at the bit level (a lane is a 32-bit
pattern represented as a `Nat`, bridged by `decodeF32`).
-/

/-- Value of an IEEE-754 binary32 lane: NaN, a signed infinity (`sign = true`
    for negative), or a finite rational value. -/
inductive F32V where
  | nan : F32V
  | inf (sign : Bool) : F32V
  | fin (q : ℚ) : F32V
deriving DecidableEq

/-- Decode a 32-bit pattern (given as a `Nat`) as an IEEE-754 binary32 value:
    1 sign bit, 8 exponent bits, 23 fraction bits, with denormals at
    exponent 0 and NaN / infinities at exponent 255. -/
def decodeF32 (b : Nat) : F32V :=
  let sign : Bool := decide (b / 2 ^ 31 % 2 = 1)
  let e : ℕ := b / 2 ^ 23 % 256
  let f : ℕ := b % 2 ^ 23
  if e = 255 then
    if f = 0 then .inf sign else .nan
  else
    let mag : ℚ :=
      if e = 0 then (f : ℚ) / 2 ^ 23 * (2 : ℚ) ^ (-126 : ℤ)
      else (1 + (f : ℚ) / 2 ^ 23) * (2 : ℚ) ^ ((e : ℤ) - 127)
    .fin (if sign then -mag else mag)

/-- Ordered less-than on binary32 values: any comparison involving NaN is
    false (both signed zeros decode to the rational 0, hence compare equal). -/
def fcmpLT : F32V → F32V → Bool
  | .nan, _ => false
  | _, .nan => false
  | .fin a, .fin b => decide (a < b)
  | .inf s, .fin _ => s
  | .fin _, .inf s => !s
  | .inf s, .inf t => s && !t

/-- Ordered equality on binary32 values: any comparison involving NaN is false. -/
def fcmpEQ : F32V → F32V → Bool
  | .nan, _ => false
  | _, .nan => false
  | .fin a, .fin b => decide (a = b)
  | .inf s, .inf t => s == t
  | .inf _, .fin _ => false
  | .fin _, .inf _ => false

/-- Ordered less-or-equal on binary32 values. -/
def fcmpLE (a b : F32V) : Bool := fcmpLT a b || fcmpEQ a b

/-- Round a rational to the nearest integer, ties to even: the default MXCSR
    rounding mode under which the JIT-emitted CVTPS2DQ executes. -/
def rne (q : ℚ) : ℤ :=
  let f := ⌊q⌋
  let r := q - f
  if r < 1 / 2 then f
  else if 1 / 2 < r then f + 1
  else if f % 2 = 0 then f else f + 1

/-- Semantics of the x86 CVTPS2DQ instruction on one lane under the default
    MXCSR: round to nearest even; NaN, infinities and out-of-range values
    produce the integer indefinite -2^31. -/
def cvtps2dq : F32V → ℤ
  | .nan => -(2 ^ 31)
  | .inf _ => -(2 ^ 31)
  | .fin q =>
    let n := rne q
    if n < -(2 ^ 31) ∨ 2 ^ 31 - 1 < n then -(2 ^ 31) else n

/-- Round an integer to the nearest binary32 value (round to nearest even on
    the 24-bit significand): the per-lane semantics of CVTDQ2PS. Exact for
    magnitudes below 2^24. -/
def f32ofInt (n : ℤ) : ℚ :=
  if n.natAbs < 2 ^ 24 then (n : ℚ)
  else
    let m := n.natAbs
    let k := Nat.log2 m - 23
    let q := ((rne ((m : ℚ) / 2 ^ k) : ℚ)) * 2 ^ k
    if n < 0 then -q else q

/-- Semantics of the x86 CVTDQ2PS instruction on one lane. -/
def cvtdq2ps (n : ℤ) : F32V := .fin (f32ofInt n)

/-- Truncation toward zero: the float-to-integer conversion the spec
    prescribes for MOVA. -/
def truncToZero (q : ℚ) : ℤ := if q < 0 then ⌈q⌉ else ⌊q⌋

/-!  ## MOVA (Compile_MOVA)  -/

/-- Emitted-code semantics of `JitCompiler::Compile_MOVA` on the two address
    offset host registers. `enX`/`enY` are `swiz.DestComponentEnabled(0/1)`;
    `x`/`y` are the X and Y lanes of the swizzled source; `a0`/`a1` are the
    current values of ADDROFFS_REG_0/1. The emitted code is CVTPS2DQ followed
    by MOVSX sign extension and SHL by 4, so each written register holds 16
    times the converted lane (a byte offset into the register banks); an
    offset whose component is not enabled is left unchanged, and the whole
    instruction is a no-op when neither X nor Y is enabled. -/
def movaJit (enX enY : Bool) (x y : F32V) (a0 a1 : ℤ) : ℤ × ℤ :=
  if !enX && !enY then (a0, a1)
  else
    let ix := cvtps2dq x
    let iy := cvtps2dq y
    if enX && enY then (16 * ix, 16 * iy)
    else if enX then (16 * ix, a1)
    else (a0, 16 * iy)

/-!  ## FLR (Compile_FLR)  -/

/-- Per-lane semantics of the SSE4.1 path of `Compile_FLR` (ROUNDFLOORPS):
    a true floor on finite values. -/
def flrLaneSSE41 : F32V → F32V
  | .fin q => .fin (⌊q⌋ : ℚ)
  | v => v

/-- Per-lane semantics of the non-SSE4.1 fallback path of `Compile_FLR`:
    CVTPS2DQ followed by CVTDQ2PS. -/
def flrLaneFallback (v : F32V) : F32V := cvtdq2ps (cvtps2dq v)

/-- Per-lane semantics of `Compile_FLR`, selecting the host code path on
    `Common::GetCPUCaps().sse4_1`. -/
def flrJitLane (sse41 : Bool) (v : F32V) : F32V :=
  if sse41 then flrLaneSSE41 v else flrLaneFallback v

/-!  ## Colour commit in Run  -/

/-- Semantics of std::fabs on a binary32 value. -/
def fabsV : F32V → F32V
  | .nan => .nan
  | .inf _ => .inf false
  | .fin q => .fin |q|

/-- Semantics of std::fmin: if exactly one operand is NaN, the other operand
    is returned. -/
def fminV : F32V → F32V → F32V
  | .nan, b => b
  | .fin a, .nan => .fin a
  | .inf s, .nan => .inf s
  | .inf s, .inf t => .inf (s || t)
  | .inf s, .fin q => if s then .inf true else .fin q
  | .fin q, .inf s => if s then .inf true else .fin q
  | .fin a, .fin b => .fin (min a b)

/-- Modelled from the spec: `float24::FromFloat32` (pica.h is not among the
    sources). The spec defines f24 as a 1/7/16-bit float appearing at output
    commit; quantisation is modelled as truncation of the significand toward
    zero at 16 fraction bits, which never increases the magnitude. -/
def f24quant (q : ℚ) : ℚ :=
  if q = 0 then 0
  else
    let scale : ℚ := (2 : ℚ) ^ ((16 : ℤ) - Int.log 2 |q|)
    let m : ℚ := (⌊|q| * scale⌋ : ℚ) / scale
    if q < 0 then -m else m

/-- Modelled from the spec: `float24::FromFloat32` lifted to binary32 values. -/
def f24FromF32 : F32V → F32V
  | .nan => .nan
  | .inf s => .inf s
  | .fin q => .fin (f24quant q)

/-- The colour post-processing loop at the end of `Run`:
    `ret.color[i] = float24::FromFloat32(std::fmin(std::fabs(x), 1.0f))`. -/
def colorCommit (v : F32V) : F32V := f24FromF32 (fminV (fabsV v) (.fin 1))

/-!  ## CMP (Compile_CMP)  -/

/-- PICA CMP comparison operators in instruction-encoding order (the enum is
    declared in pica.h, which is not among the sources; order modelled from
    the spec list EQ, NEQ, LT, LE, GT, GE). -/
inductive PicaCmpOp where
  | ceq | cneq | clt | cle | cgt | cge
deriving DecidableEq

/-- SSE compare predicates appearing in the `cmp[]` table of `Compile_CMP`. -/
inductive SSEPred where
  | predEQ | predNEQ | predLT | predLE | predNLE | predNLT
deriving DecidableEq

/-- The `cmp[]` lookup table of `Compile_CMP`:
    `{ CMP_EQ, CMP_NEQ, CMP_LT, CMP_LE, CMP_NLE, CMP_NLT }`, indexed by the
    PICA comparison operator. -/
def cmpTable : PicaCmpOp → SSEPred
  | .ceq => .predEQ
  | .cneq => .predNEQ
  | .clt => .predLT
  | .cle => .predLE
  | .cgt => .predNLE
  | .cge => .predNLT

/-- Intel semantics of the SSE compare predicates used by the JIT: EQ, LT and
    LE are ordered (false when an operand is NaN); NEQ, NLE and NLT are
    unordered negations (true when an operand is NaN). -/
def ssePredEval : SSEPred → F32V → F32V → Bool
  | .predEQ, a, b => fcmpEQ a b
  | .predNEQ, a, b => !fcmpEQ a b
  | .predLT, a, b => fcmpLT a b
  | .predLE, a, b => fcmpLE a b
  | .predNLE, a, b => !fcmpLE a b
  | .predNLT, a, b => !fcmpLT a b

/-- Condition-code bit computed by `Compile_CMP` for one lane: the SSE
    predicate selected by the `cmp[]` table, applied to the swizzled source
    lanes (both the CMPPS path and the CMPSS-per-lane path use the predicate
    `cmp[op]` for that lane; the MOVQ/SHR sequence extracts the mask sign bit
    as a boolean). -/
def jitCmpLane (op : PicaCmpOp) (a b : F32V) : Bool := ssePredEval (cmpTable op) a b

/-- The two condition-code registers COND0 and COND1 after `Compile_CMP`:
    lane X compared under `compare_op.x`, lane Y under `compare_op.y`. -/
def jitCmpCond (opx opy : PicaCmpOp) (s1x s1y s2x s2y : F32V) : Bool × Bool :=
  (jitCmpLane opx s1x s2x, jitCmpLane opy s1y s2y)

/-- The result the claim predicts for a comparison involving a NaN lane:
    true exactly for GT, GE and NEQ. -/
def cmpNaNResult : PicaCmpOp → Bool
  | .cgt => true
  | .cge => true
  | .cneq => true
  | _ => false

/-!  ## Bit-level lanes, swizzling, and SLTI (Compile_SwizzleSrc / Compile_SLTI)  -/

/-- Four SSE lanes at the bit level: each field is a 32-bit pattern. -/
structure BVec4 where
  x : Nat
  y : Nat
  z : Nat
  w : Nat
deriving DecidableEq

/-- Lane selection by component index (X = 0, Y = 1, Z = 2, W = 3). -/
def laneOf (v : BVec4) : Nat → Nat
  | 0 => v.x
  | 1 => v.y
  | 2 => v.z
  | _ => v.w

/-- The swizzle-pattern fields of an operand descriptor read by the JIT
    (`SwizzlePattern` is declared in pica.h, which is not among the sources;
    fields modelled from the spec: one raw 8-bit component selector and one
    negate flag per source, plus a 4-bit destination mask). In the raw
    selector the X component occupies the top two bits, so the identity
    selector is 0x1b. -/
structure SwizzlePat where
  selSrc1 : Nat
  selSrc2 : Nat
  selSrc3 : Nat
  negSrc1 : Bool
  negSrc2 : Bool
  negSrc3 : Bool
  destMask : Nat

/-- `SwizzlePattern::GetRawSelector(src_num)`. -/
def getRawSelector (s : SwizzlePat) : Nat → Nat
  | 1 => s.selSrc1
  | 2 => s.selSrc2
  | _ => s.selSrc3

/-- The `negate[]` array of Compile_SwizzleSrc, indexed by `src_num - 1`. -/
def getNegate (s : SwizzlePat) : Nat → Bool
  | 1 => s.negSrc1
  | 2 => s.negSrc2
  | _ => s.negSrc3

/-- Effect of the SHUFPS emitted by Compile_SwizzleSrc (after its immediate
    reversal): lane c of the result is input lane sel[c], where the raw
    selector packs two bits per lane with X in the top bits. -/
def applySel (sel : Nat) (v : BVec4) : BVec4 :=
  ⟨laneOf v (sel / 64 % 4), laneOf v (sel / 16 % 4),
    laneOf v (sel / 4 % 4), laneOf v (sel % 4)⟩

/-- Effect of the XORPS with the NEGBIT constant vector
    [-0.f, -0.f, -0.f, -0.f]: flip the sign bit of every lane. -/
def xorNeg (v : BVec4) : BVec4 :=
  ⟨v.x ^^^ 0x80000000, v.y ^^^ 0x80000000, v.z ^^^ 0x80000000, v.w ^^^ 0x80000000⟩

/-- Compile_SwizzleSrc applied to an already-loaded register value: SHUFPS by
    the raw selector for `srcNum` unless it is the identity 0x1b, then XORPS
    with the sign mask when the negate flag for `srcNum` is set. -/
def swizzleSrcBits (s : SwizzlePat) (srcNum : Nat) (v : BVec4) : BVec4 :=
  let v1 := if getRawSelector s srcNum = 0x1b then v
            else applySel (getRawSelector s srcNum) v
  if getNegate s srcNum then xorNeg v1 else v1

/-- Emitted-code semantics of `JitCompiler::Compile_SLTI` at the bit level,
    as compiled: both sources are loaded with `src_num = 1` (the C++ passes 1
    for `src2i` as well, so the second source uses the selector and negate
    flag of source 1); CMPSS writes the all-ones or all-zero comparison mask
    into lane X only, leaving lanes Y, Z, W of SRC1 unchanged; ANDPS with the
    ONE constant vector then masks every lane with the bits of 1.0f
    (0x3F800000). -/
def sltiJitBits (s : SwizzlePat) (r1 r2 : BVec4) : BVec4 :=
  let s1 := swizzleSrcBits s 1 r1
  let s2 := swizzleSrcBits s 1 r2
  let lx : Nat := if fcmpLT (decodeF32 s1.x) (decodeF32 s2.x) then 0xFFFFFFFF else 0
  ⟨lx &&& 0x3F800000, s1.y &&& 0x3F800000, s1.z &&& 0x3F800000, s1.w &&& 0x3F800000⟩

/-- The result the claim states for SLTI: in every lane, the bits of 1.0 if
    s1[lane] < s2[lane] and the bits of 0.0 otherwise, with each source
    swizzled by its own selector. -/
def sltiClaimBits (s : SwizzlePat) (r1 r2 : BVec4) : BVec4 :=
  let s1 := swizzleSrcBits s 1 r1
  let s2 := swizzleSrcBits s 2 r2
  let lane : Nat → Nat → Nat := fun a b =>
    if fcmpLT (decodeF32 a) (decodeF32 b) then 0x3F800000 else 0
  ⟨lane s1.x s2.x, lane s1.y s2.y, lane s1.z s2.z, lane s1.w s2.w⟩

/-- A swizzle pattern with identity selectors, no negation and a full
    destination mask. -/
def idSwz : SwizzlePat := ⟨0x1b, 0x1b, 0x1b, false, false, false, 0xf⟩

/-!  ## Value-level lanes and the spec-modelled interpreter SLTI  -/

/-- Four SSE lanes at the value level. -/
structure VVec4 where
  x : F32V
  y : F32V
  z : F32V
  w : F32V
deriving DecidableEq

/-- Lane selection by component index on value-level lanes. -/
def laneOfV (v : VVec4) : Nat → F32V
  | 0 => v.x
  | 1 => v.y
  | 2 => v.z
  | _ => v.w

/-- Float negation (sign-bit flip) at the value level. -/
def negV : F32V → F32V
  | .nan => .nan
  | .inf s => .inf (!s)
  | .fin q => .fin (-q)

/-- Component selector applied at the value level. -/
def applySelV (sel : Nat) (v : VVec4) : VVec4 :=
  ⟨laneOfV v (sel / 64 % 4), laneOfV v (sel / 16 % 4),
    laneOfV v (sel / 4 % 4), laneOfV v (sel % 4)⟩

/-- Modelled from the spec: the interpreter's operand loading, steps 3 and 4
    (the interpreter source file is not under src): apply the per-component
    selector of source `n`, then negate all four lanes when the negate flag
    of source `n` is set. -/
def interpSwizzleSrc (s : SwizzlePat) (n : Nat) (v : VVec4) : VVec4 :=
  let v1 := applySelV (getRawSelector s n) v
  if getNegate s n then ⟨negV v1.x, negV v1.y, negV v1.z, negV v1.w⟩ else v1

/-- Modelled from the spec: the interpreter's SLT/SLTI,
    d = (s1 < s2) ? 1.0 : 0.0 per lane, each source swizzled by its own
    selector and negate flag. -/
def interpSLTI (s : SwizzlePat) (r1 r2 : VVec4) : VVec4 :=
  let s1 := interpSwizzleSrc s 1 r1
  let s2 := interpSwizzleSrc s 2 r2
  let lane : F32V → F32V → F32V := fun a b =>
    if fcmpLT a b then .fin 1 else .fin 0
  ⟨lane s1.x s2.x, lane s1.y s2.y, lane s1.z s2.z, lane s1.w s2.w⟩

/-- The tolerance of the equivalence claim: 2^-22. -/
def epsTol : ℚ := 1 / 2 ^ 22

/-!  ## Source-address computation in Compile_SwizzleSrc  -/

/-- The address host registers read by the indexed loads of
    Compile_SwizzleSrc: ADDROFFS_REG_0 and ADDROFFS_REG_1 (byte offsets, 16
    times the converted index, written by MOVA) and LOOPCOUNT_REG (the raw
    loop counter, written by Compile_LOOP). -/
structure AddrRegs where
  a0 : ℤ
  a1 : ℤ
  lc : ℤ
deriving DecidableEq

/-- Which source the address offset applies to: src1 for normal opcodes,
    src2 for SrcInversed opcodes (`is_inverted ? 2 : 1`). -/
def offsetSrcNum (isInverted : Bool) : Nat := if isInverted then 2 else 1

/-- Byte address of the load emitted by Compile_SwizzleSrc, relative to the
    bank base: `base` is the precomputed displacement (index * 16 bytes).
    For MAD/MADI a plain MDisp load is emitted; otherwise, when this source
    is the offsettable one and the address-register-index is nonzero, an
    MComplex load adds the selected address register with scale 1 (values
    other than 1, 2, 3 are UNREACHABLE in the C++ because the field is two
    bits wide; the model returns the loop-counter case for them). No modulo
    or bounds reduction is applied. -/
def jitSrcAddr (isMad isInverted : Bool) (srcNum addrIdx : Nat)
    (regs : AddrRegs) (base : ℤ) : ℤ :=
  if isMad then base
  else if srcNum = offsetSrcNum isInverted ∧ addrIdx ≠ 0 then
    match addrIdx with
    | 1 => base + regs.a0
    | 2 => base + regs.a1
    | _ => base + regs.lc
  else base

/-- The load address the claim prescribes for a float-uniform source: index
    plus offset reduced modulo the uniform bank size (96 registers), in
    16-byte units. -/
def claimUniformAddr (idx : Nat) (off : ℤ) : ℤ := 16 * (((idx : ℤ) + off) % 96)

/-!  ## LOOP (Compile_LOOP)  -/

/-- Extraction of the loop parameters from the 32-bit integer-uniform word
    `w` in Compile_LOOP: LOOPCOUNT (the iteration count) is the low byte (X)
    plus one, LOOPCOUNT_REG (the running loop counter) starts as the second
    byte (Y), and LOOPINC is the third byte (Z). -/
def loopSetup (w : Nat) : Nat × Nat × Nat :=
  (w % 256 + 1, w / 256 % 256, w / 65536 % 256)

/-- Values of LOOPCOUNT_REG seen by the loop body on successive iterations of
    the emitted do-while loop: the body runs, LOOPINC is added to
    LOOPCOUNT_REG, LOOPCOUNT is decremented and the loop repeats while it is
    nonzero. The additions are 32-bit, hence the modulus. -/
def loopIters : Nat → Nat → Nat → List Nat
  | 0, _, _ => []
  | n + 1, reg, inc => reg :: loopIters n ((reg + inc) % 2 ^ 32) inc

/-- The trace of loop-counter values produced by the code Compile_LOOP emits
    for integer uniform word `w`. -/
def compileLoopRun (w : Nat) : List Nat :=
  loopIters (loopSetup w).1 (loopSetup w).2.1 (loopSetup w).2.2

/-- Offsets fetched by `Compile_Block(stop)` when entered at `o`:
    `while (offset <= stop) Compile_NextInstr(&offset)`. -/
def blockOffsets (o stop : Nat) : List Nat :=
  if _h : o ≤ stop then o :: blockOffsets (o + 1) stop else []
termination_by stop + 1 - o
decreasing_by omega

/-!  ## Shader cache (Setup / Shutdown)  -/

/-- Modelled from the spec: `Common::ComputeHash64` (common/hash.h is not
    among the sources), a deterministic 64-bit content hash; only its
    determinism matters to the cache argument. -/
def contentHash64 (l : List Nat) : Nat :=
  l.foldl (fun h b => (h * 1099511628211 + b) % 2 ^ 64) 14695981039346656037

/-- The cache key computed in `Setup`: hash of the program-code bytes XOR
    hash of the swizzle table XOR the entry offset. -/
def cacheKey (code swz : List Nat) (off : Nat) : Nat :=
  (contentHash64 code ^^^ contentHash64 swz) ^^^ off

/-- State of the shader cache: the map from fingerprint to compiled
    entrypoint (an id standing for the code pointer), the id the next
    compilation will return, the current `jit_shader`, and the (ghost) list
    of keys for which `JitCompiler::Compile` has run, in order. -/
structure CacheState where
  entries : List (Nat × Nat)
  nextId : Nat
  cur : Option Nat
  log : List Nat
deriving DecidableEq

/-- Lookup in the fingerprint map (`shader_map.find`). -/
def findEntry : List (Nat × Nat) → Nat → Option Nat
  | [], _ => none
  | (k, e) :: t, k0 => if k = k0 then some e else findEntry t k0

/-- `Setup`: when the JIT is enabled, look the fingerprint up; on a hit reuse
    the stored entrypoint, otherwise compile and store the new entrypoint
    under the fingerprint. -/
def setupStep (enabled : Bool) (code swz : List Nat) (off : Nat)
    (s : CacheState) : CacheState :=
  if enabled then
    match findEntry s.entries (cacheKey code swz off) with
    | some e => { s with cur := some e }
    | none =>
      { entries := (cacheKey code swz off, s.nextId) :: s.entries,
        nextId := s.nextId + 1, cur := some s.nextId,
        log := s.log ++ [cacheKey code swz off] }
  else s

/-- A sequence of `Setup` calls with the JIT enabled, each with its program
    code, swizzle table and entry offset. -/
def runSetups : List (List Nat × List Nat × Nat) → CacheState → CacheState
  | [], s => s
  | p :: ps, s => runSetups ps (setupStep true p.1 p.2.1 p.2.2 s)

/-- The cache state at start and after `Shutdown` (`shader_map.clear()`). -/
def emptyCache : CacheState := ⟨[], 0, none, []⟩

/-- Invariant of the cache: every fingerprint has been compiled at most once,
    and every compiled fingerprint is present in the map. -/
def cacheInv (s : CacheState) : Prop :=
  ∀ k, s.log.count k ≤ 1 ∧ (k ∈ s.log → (findEntry s.entries k).isSome = true)

/-!  ## Compile-time control flow of JitCompiler::Compile  -/

/-- Shape of a PICA instruction as dispatched by `Compile_NextInstr` through
    `instr_table`. Opcodes whose handlers emit straight-line code with no
    compile-time control transfer (the arithmetic group, MOVA, CMP, NOP,
    END, and unhandled opcodes, which only log) are `plain`; CALL, CALLC and
    CALLU all compile the range [dest, dest + num) (`callI`); IFU and IFC
    share `Compile_IF` (`condIf`); JMPC and JMPU share `Compile_JMP`
    (`jmpI`); LOOP is `loopI`. -/
inductive PInstr where
  | plain : PInstr
  | callI (dest num : Nat) : PInstr
  | condIf (dest num : Nat) : PInstr
  | loopI (dest : Nat) : PInstr
  | jmpI (dest : Nat) : PInstr
deriving DecidableEq

/-- Outcome classification of the modelled compile pass: the backwards
    assertions of Compile_IF, Compile_LOOP and Compile_JMP, the nested-loop
    assertion of Compile_LOOP, and exhaustion of the model's recursion fuel
    (which is not an assertion of the code). -/
inductive CErr where
  | backIf | backLoop | backJmp | nestedLoop | fuelOut
deriving DecidableEq

/-- Fetch `g_state.vs.program_code[offset]`; offsets past the end of the
    program are modelled as `plain` (the C++ reads adjacent memory there,
    which only the top-level loop's bound prevents). -/
def fetchAt : List PInstr → Nat → PInstr
  | [], _ => .plain
  | i :: _, 0 => i
  | _ :: t, n + 1 => fetchAt t n

mutual

/-- One step of `Compile_NextInstr`: fetch the instruction at `o`, advance
    past it, and dispatch through `instr_table`. Returns the offset at which
    the enclosing loop continues together with the `looping` member, or the
    assertion that fired. `Compile_IF` asserts `dest_offset > *offset_ptr`
    (the already-incremented offset `o + 1`), compiles the true range up to
    `dest - 1`, and, when `num_instructions` is nonzero, the else range up to
    `dest + num - 1`; `Compile_LOOP` asserts the same bound and `!looping`,
    then compiles its body up to `dest` inclusive with `looping` set, and
    clears `looping`; `Compile_JMP` asserts the bound and compiles up to
    `dest` inclusive; the CALL family compiles `[dest, dest + num)` with its
    own offset cursor and continues at `o + 1`. -/
def compileNext (prog : List PInstr) : Nat → Bool → Nat → Except CErr (Nat × Bool)
  | 0, _, _ => .error .fuelOut
  | fuel + 1, looping, o =>
    match fetchAt prog o with
    | .plain => .ok (o + 1, looping)
    | .callI d n =>
      match compileCallRange prog fuel looping d (d + n) with
      | .error e => .error e
      | .ok (_, l2) => .ok (o + 1, l2)
    | .condIf d n =>
      if d ≤ o + 1 then .error .backIf
      else
        match compileBlock prog fuel looping (o + 1) (d - 1) with
        | .error e => .error e
        | .ok (o2, l2) =>
          if n = 0 then .ok (o2, l2)
          else
            match compileBlock prog fuel l2 o2 (d + n - 1) with
            | .error e => .error e
            | .ok (o3, l3) => .ok (o3, l3)
    | .loopI d =>
      if d ≤ o + 1 then .error .backLoop
      else if looping then .error .nestedLoop
      else
        match compileBlock prog fuel true (o + 1) d with
        | .error e => .error e
        | .ok (o2, _) => .ok (o2, false)
    | .jmpI d =>
      if d ≤ o + 1 then .error .backJmp
      else
        match compileBlock prog fuel looping (o + 1) d with
        | .error e => .error e
        | .ok (o2, l2) => .ok (o2, l2)

/-- `Compile_Block(stop)`: `while (offset <= stop) Compile_NextInstr(&offset)`. -/
def compileBlock (prog : List PInstr) :
    Nat → Bool → Nat → Nat → Except CErr (Nat × Bool)
  | 0, _, _, _ => .error .fuelOut
  | fuel + 1, looping, o, stop =>
    if stop < o then .ok (o, looping)
    else
      match compileNext prog fuel looping o with
      | .error e => .error e
      | .ok (o2, l2) => compileBlock prog fuel l2 o2 stop

/-- The `while (offset < stop)` loops of `Compile_CALL` (over
    `[dest, dest + num)`) and of `JitCompiler::Compile` (over
    `[main_offset, program size)`). -/
def compileCallRange (prog : List PInstr) :
    Nat → Bool → Nat → Nat → Except CErr (Nat × Bool)
  | 0, _, _, _ => .error .fuelOut
  | fuel + 1, looping, o, stop =>
    if stop ≤ o then .ok (o, looping)
    else
      match compileNext prog fuel looping o with
      | .error e => .error e
      | .ok (o2, l2) => compileCallRange prog fuel l2 o2 stop

end

/-- `JitCompiler::Compile`: after the prologue, `looping = false`, then the
    main loop compiles every offset from the entry offset to the end of the
    program. -/
def compileProgram (prog : List PInstr) (fuel : Nat) (mainOffset : Nat) :
    Except CErr Unit :=
  match compileCallRange prog fuel false mainOffset prog.length with
  | .error e => .error e
  | .ok _ => .ok ()

/-- An instruction at offset `i` that trips a backwards assertion as the
    compiler actually checks it: an IF, LOOP or JMP whose destination is not
    strictly greater than the already-incremented offset `i + 1`. -/
def amendedBadFlowAtB (prog : List PInstr) (i : Nat) : Bool :=
  match fetchAt prog i with
  | .condIf d _ => decide (d ≤ i + 1)
  | .loopI d => decide (d ≤ i + 1)
  | .jmpI d => decide (d ≤ i + 1)
  | _ => false

/-- An instruction at offset `i` that is backwards in the sense of the claim
    as stated: destination not strictly greater than the program counter `i`
    of the instruction. -/
def claimBadFlowAtB (prog : List PInstr) (i : Nat) : Bool :=
  match fetchAt prog i with
  | .condIf d _ => decide (d ≤ i)
  | .loopI d => decide (d ≤ i)
  | .jmpI d => decide (d ≤ i)
  | _ => false

/-- There is a LOOP instruction at offset `i`. -/
def isLoopAtB (prog : List PInstr) (i : Nat) : Bool :=
  match fetchAt prog i with
  | .loopI _ => true
  | _ => false

/-- The program contains no CALL/CALLC/CALLU. -/
def noCallP (prog : List PInstr) : Prop :=
  ∀ i d n, fetchAt prog i ≠ .callI d n

/-- Every IF, LOOP and JMP in the program has destination strictly greater
    than the already-incremented offset. -/
def goodFlowP (prog : List PInstr) : Prop :=
  ∀ i, amendedBadFlowAtB prog i = false

/-- The program contains at most one LOOP instruction. -/
def oneLoopP (prog : List PInstr) : Prop :=
  ∀ i j, isLoopAtB prog i = true → isLoopAtB prog j = true → i = j

/-- No LOOP instruction at offset `o` or later. -/
def loopFreeFrom (prog : List PInstr) (o : Nat) : Prop :=
  ∀ j, o ≤ j → isLoopAtB prog j = false

/-- The program contains an instruction that can trip an assertion: a flow
    instruction with destination at most the incremented offset, or a LOOP
    (whose re-entry, possibly through CALL inlining, can trip the nested-loop
    assertion). -/
def badOrLoop (prog : List PInstr) : Prop :=
  (∃ i, amendedBadFlowAtB prog i = true) ∨ (∃ i, isLoopAtB prog i = true)

/-- Well-behavedness of a compile-pass result: any error is fuel exhaustion
    (never an assertion), and success moves the offset to at least `olow`
    and returns with the `looping` flag it was entered with. -/
def ResOK (olow : Nat) (l : Bool) (r : Except CErr (Nat × Bool)) : Prop :=
  match r with
  | .error e => e = .fuelOut
  | .ok (o2, l2) => olow ≤ o2 ∧ l2 = l

/-!  ## Helper lemmas  -/

lemma jitCmpLane_nan (op : PicaCmpOp) (a b : F32V) (h : a = .nan ∨ b = .nan) :
    jitCmpLane op a b = cmpNaNResult op := by
  rcases h with h | h
  · subst h
    cases b <;> cases op <;> rfl
  · subst h
    cases a <;> cases op <;> rfl

lemma f24quant_of_unit (q : ℚ) (h0 : 0 ≤ q) (h1 : q ≤ 1) :
    0 ≤ f24quant q ∧ f24quant q ≤ 1 := by
  unfold f24quant
  by_cases hq : q = 0
  · simp [hq]
  · have hqpos : 0 < q := lt_of_le_of_ne h0 (Ne.symm hq)
    have habs : |q| = q := abs_of_pos hqpos
    have hscale : (0 : ℚ) < (2 : ℚ) ^ ((16 : ℤ) - Int.log 2 |q|) :=
      zpow_pos (by norm_num) _
    simp only [hq, if_false, habs]
    set s : ℚ := (2 : ℚ) ^ ((16 : ℤ) - Int.log 2 q) with hs
    have hnlt : ¬ q < 0 := not_lt.mpr h0
    simp only [hnlt, if_false]
    constructor
    · apply div_nonneg _ (le_of_lt (by rw [habs] at hscale; exact hscale))
      have : (0 : ℤ) ≤ ⌊q * s⌋ := by
        apply Int.floor_nonneg.mpr
        exact mul_nonneg h0 (le_of_lt (by rw [habs] at hscale; exact hscale))
      exact_mod_cast this
    · have hspos : (0 : ℚ) < s := by rw [habs] at hscale; exact hscale
      have hfloor : ((⌊q * s⌋ : ℚ)) ≤ q * s := Int.floor_le _
      calc ((⌊q * s⌋ : ℚ)) / s ≤ (q * s) / s :=
            div_le_div_of_nonneg_right hfloor hspos.le
        _ = q := by field_simp
        _ ≤ 1 := h1

lemma loopIters_length (n : Nat) : ∀ r i : Nat, (loopIters n r i).length = n := by
  induction n with
  | zero => intro r i; rfl
  | succ n ih =>
    intro r i
    simp [loopIters, ih]

lemma loopIters_getD (n : Nat) :
    ∀ r i j : Nat, j < n → r + n * i < 2 ^ 32 →
      (loopIters n r i).getD j 0 = r + j * i := by
  induction n with
  | zero => intro r i j hj _; omega
  | succ n ih =>
    intro r i j hj hb
    cases j with
    | zero => simp [loopIters]
    | succ j =>
      have hji : j < n := by omega
      have hmod : (r + i) % 2 ^ 32 = r + i := by
        apply Nat.mod_eq_of_lt
        have : i ≤ (n + 1) * i := Nat.le_mul_of_pos_left i (by omega)
        omega
      have hb2 : (r + i) + n * i < 2 ^ 32 := by
        have : r + (n + 1) * i = (r + i) + n * i := by ring
        omega
      have := ih (r + i) i j hji hb2
      simp only [loopIters, List.getD_cons_succ, hmod]
      rw [this]
      ring

lemma blockOffsets_eq_aux (n : Nat) :
    ∀ o s : Nat, s + 1 - o = n → blockOffsets o s = List.range' o n := by
  induction n with
  | zero =>
    intro o s h
    have hn : ¬ o ≤ s := by omega
    rw [blockOffsets, dif_neg hn]
    rfl
  | succ n ih =>
    intro o s h
    have hn : o ≤ s := by omega
    rw [blockOffsets, dif_pos hn, ih (o + 1) s (by omega)]
    rfl

lemma findEntry_cons_self (k e : Nat) (t : List (Nat × Nat)) :
    findEntry ((k, e) :: t) k = some e := by
  simp [findEntry]

lemma setupStep_preserves_inv (code swz : List Nat) (off : Nat) (s : CacheState)
    (hs : cacheInv s) : cacheInv (setupStep true code swz off s) := by
  intro k
  unfold setupStep
  cases h : findEntry s.entries (cacheKey code swz off) with
  | some e =>
    simp only [if_true, h]
    exact hs k
  | none =>
    simp only [if_true, h]
    by_cases hk : k = cacheKey code swz off
    · subst hk
      have hnotmem : cacheKey code swz off ∉ s.log := by
        intro hmem
        have h2 := (hs (cacheKey code swz off)).2 hmem
        rw [h] at h2
        simp at h2
      constructor
      · rw [List.count_append, List.count_eq_zero.mpr hnotmem]
        simp
      · intro _
        simp [findEntry_cons_self]
    · constructor
      · have h1 := (hs k).1
        have h2 : List.count k [cacheKey code swz off] = 0 :=
          List.count_eq_zero.mpr (by simp [hk])
        rw [List.count_append, h2]
        simpa using h1
      · intro hmem
        have hmem2 : k ∈ s.log := by
          simp only [List.mem_append, List.mem_singleton] at hmem
          tauto
        have := (hs k).2 hmem2
        simpa [findEntry, Ne.symm hk, hk] using this

lemma runSetups_preserves_inv (l : List (List Nat × List Nat × Nat)) :
    ∀ s : CacheState, cacheInv s → cacheInv (runSetups l s) := by
  induction l with
  | nil => intro s hs; exact hs
  | cons p ps ih =>
    intro s hs
    exact ih _ (setupStep_preserves_inv p.1 p.2.1 p.2.2 s hs)

lemma emptyCache_inv : cacheInv emptyCache := by
  intro k
  constructor
  · simp [emptyCache]
  · intro h
    simp [emptyCache] at h

lemma loopFreeFrom_mono (prog : List PInstr) (o o2 : Nat) (h : loopFreeFrom prog o)
    (hle : o ≤ o2) : loopFreeFrom prog o2 :=
  fun j hj => h j (le_trans hle hj)

lemma compile_err_characterization (prog : List PInstr) : ∀ fuel : Nat,
    (∀ l o e, compileNext prog fuel l o = .error e →
      e = .fuelOut ∨ badOrLoop prog)
    ∧ (∀ l o stop e, compileBlock prog fuel l o stop = .error e →
      e = .fuelOut ∨ badOrLoop prog)
    ∧ (∀ l o stop e, compileCallRange prog fuel l o stop = .error e →
      e = .fuelOut ∨ badOrLoop prog) := by
  intro fuel
  induction fuel with
  | zero =>
    refine ⟨?_, ?_, ?_⟩
    · intro l o e h
      simp only [compileNext, Except.error.injEq] at h
      exact Or.inl h.symm
    · intro l o stop e h
      simp only [compileBlock, Except.error.injEq] at h
      exact Or.inl h.symm
    · intro l o stop e h
      simp only [compileCallRange, Except.error.injEq] at h
      exact Or.inl h.symm
  | succ fuel ih =>
    refine ⟨?_, ?_, ?_⟩
    · intro l o e h
      cases hfetch : fetchAt prog o with
      | plain =>
        simp only [compileNext, hfetch] at h
        exact Except.noConfusion h
      | callI d n =>
        simp only [compileNext, hfetch] at h
        cases hc : compileCallRange prog fuel l d (d + n) with
        | error e2 =>
          simp only [hc, Except.error.injEq] at h
          subst h
          exact ih.2.2 l d (d + n) e2 hc
        | ok p =>
          obtain ⟨o2, l2⟩ := p
          simp only [hc] at h
          exact Except.noConfusion h
      | condIf d n =>
        simp only [compileNext, hfetch] at h
        by_cases hd : d ≤ o + 1
        · refine Or.inr (Or.inl ⟨o, ?_⟩)
          simp [amendedBadFlowAtB, hfetch, hd]
        · rw [if_neg hd] at h
          cases hb : compileBlock prog fuel l (o + 1) (d - 1) with
          | error e2 =>
            simp only [hb, Except.error.injEq] at h
            subst h
            exact ih.2.1 l (o + 1) (d - 1) e2 hb
          | ok p =>
            obtain ⟨o2, l2⟩ := p
            simp only [hb] at h
            by_cases hn : n = 0
            · simp [hn] at h
            · rw [if_neg hn] at h
              cases hb2 : compileBlock prog fuel l2 o2 (d + n - 1) with
              | error e2 =>
                simp only [hb2, Except.error.injEq] at h
                subst h
                exact ih.2.1 l2 o2 (d + n - 1) e2 hb2
              | ok p2 =>
                obtain ⟨o3, l3⟩ := p2
                simp only [hb2] at h
                exact Except.noConfusion h
      | loopI d =>
        simp only [compileNext, hfetch] at h
        by_cases hd : d ≤ o + 1
        · refine Or.inr (Or.inl ⟨o, ?_⟩)
          simp [amendedBadFlowAtB, hfetch, hd]
        · rw [if_neg hd] at h
          cases l with
          | true =>
            refine Or.inr (Or.inr ⟨o, ?_⟩)
            simp [isLoopAtB, hfetch]
          | false =>
            simp only [Bool.false_eq_true, if_false] at h
            cases hb : compileBlock prog fuel true (o + 1) d with
            | error e2 =>
              simp only [hb, Except.error.injEq] at h
              subst h
              exact ih.2.1 true (o + 1) d e2 hb
            | ok p =>
              obtain ⟨o2, l2⟩ := p
              simp only [hb] at h
              exact Except.noConfusion h
      | jmpI d =>
        simp only [compileNext, hfetch] at h
        by_cases hd : d ≤ o + 1
        · refine Or.inr (Or.inl ⟨o, ?_⟩)
          simp [amendedBadFlowAtB, hfetch, hd]
        · rw [if_neg hd] at h
          cases hb : compileBlock prog fuel l (o + 1) d with
          | error e2 =>
            simp only [hb, Except.error.injEq] at h
            subst h
            exact ih.2.1 l (o + 1) d e2 hb
          | ok p =>
            obtain ⟨o2, l2⟩ := p
            simp only [hb] at h
            exact Except.noConfusion h
    · intro l o stop e h
      simp only [compileBlock] at h
      by_cases hlt : stop < o
      · simp [hlt] at h
      · rw [if_neg hlt] at h
        cases hn : compileNext prog fuel l o with
        | error e2 =>
          simp only [hn, Except.error.injEq] at h
          subst h
          exact ih.1 l o e2 hn
        | ok p =>
          obtain ⟨o2, l2⟩ := p
          simp only [hn] at h
          exact ih.2.1 l2 o2 stop e h
    · intro l o stop e h
      simp only [compileCallRange] at h
      by_cases hle : stop ≤ o
      · simp [hle] at h
      · rw [if_neg hle] at h
        cases hn : compileNext prog fuel l o with
        | error e2 =>
          simp only [hn, Except.error.injEq] at h
          subst h
          exact ih.1 l o e2 hn
        | ok p =>
          obtain ⟨o2, l2⟩ := p
          simp only [hn] at h
          exact ih.2.2 l2 o2 stop e h

lemma ResOK_mono (o o2 : Nat) (l : Bool) (r : Except CErr (Nat × Bool))
    (hle : o ≤ o2) (h : ResOK o2 l r) : ResOK o l r := by
  cases r with
  | error e => exact h
  | ok p =>
    obtain ⟨o3, l3⟩ := p
    simp only [ResOK] at h
    exact ⟨le_trans hle h.1, h.2⟩

lemma compile_no_assert (prog : List PInstr) (hnc : noCallP prog)
    (hgf : goodFlowP prog) (hol : oneLoopP prog) : ∀ fuel : Nat,
    (∀ l o, (l = true → loopFreeFrom prog o) →
      ResOK (o + 1) l (compileNext prog fuel l o))
    ∧ (∀ l o stop, (l = true → loopFreeFrom prog o) →
      ResOK o l (compileBlock prog fuel l o stop))
    ∧ (∀ l o stop, (l = true → loopFreeFrom prog o) →
      ResOK o l (compileCallRange prog fuel l o stop)) := by
  intro fuel
  induction fuel with
  | zero =>
    refine ⟨?_, ?_, ?_⟩
    · intro l o _
      simp [compileNext, ResOK]
    · intro l o stop _
      simp [compileBlock, ResOK]
    · intro l o stop _
      simp [compileCallRange, ResOK]
  | succ fuel ih =>
    refine ⟨?_, ?_, ?_⟩
    · intro l o hl
      cases hfetch : fetchAt prog o with
      | plain =>
        simp [compileNext, hfetch, ResOK]
      | callI d n =>
        exact absurd hfetch (hnc o d n)
      | condIf d n =>
        have hbad : ¬ d ≤ o + 1 := by
          have h0 := hgf o
          simp only [amendedBadFlowAtB, hfetch, decide_eq_false_iff_not] at h0
          exact h0
        simp only [compileNext, hfetch, if_neg hbad]
        have h1 := ih.2.1 l (o + 1) (d - 1)
          (fun hh => loopFreeFrom_mono prog o (o + 1) (hl hh) (by omega))
        cases hb : compileBlock prog fuel l (o + 1) (d - 1) with
        | error e2 =>
          rw [hb] at h1
          exact h1
        | ok p =>
          obtain ⟨o2, l2⟩ := p
          rw [hb] at h1
          simp only [ResOK] at h1
          obtain ⟨ho2, hl2⟩ := h1
          subst hl2
          dsimp only
          by_cases hn : n = 0
          · rw [if_pos hn]
            exact ⟨ho2, rfl⟩
          · rw [if_neg hn]
            have h2 := ih.2.1 l2 o2 (d + n - 1)
              (fun hh => loopFreeFrom_mono prog o o2 (hl hh) (by omega))
            cases hb2 : compileBlock prog fuel l2 o2 (d + n - 1) with
            | error e2 =>
              rw [hb2] at h2
              exact h2
            | ok p2 =>
              obtain ⟨o3, l3⟩ := p2
              rw [hb2] at h2
              simp only [ResOK] at h2
              exact ⟨by omega, h2.2⟩
      | loopI d =>
        have hbad : ¬ d ≤ o + 1 := by
          have h0 := hgf o
          simp only [amendedBadFlowAtB, hfetch, decide_eq_false_iff_not] at h0
          exact h0
        cases l with
        | true =>
          exfalso
          have h0 := hl rfl o (le_refl o)
          simp [isLoopAtB, hfetch] at h0
        | false =>
          simp only [compileNext, hfetch, if_neg hbad, Bool.false_eq_true,
            if_false]
          have hlf : loopFreeFrom prog (o + 1) := by
            intro j hj
            cases hloop : isLoopAtB prog j with
            | false => rfl
            | true =>
              have hjo := hol j o hloop (by simp [isLoopAtB, hfetch])
              omega
          have h1 := ih.2.1 true (o + 1) d (fun _ => hlf)
          cases hb : compileBlock prog fuel true (o + 1) d with
          | error e2 =>
            rw [hb] at h1
            exact h1
          | ok p =>
            obtain ⟨o2, l2⟩ := p
            rw [hb] at h1
            simp only [ResOK] at h1
            exact ⟨h1.1, rfl⟩
      | jmpI d =>
        have hbad : ¬ d ≤ o + 1 := by
          have h0 := hgf o
          simp only [amendedBadFlowAtB, hfetch, decide_eq_false_iff_not] at h0
          exact h0
        simp only [compileNext, hfetch, if_neg hbad]
        have h1 := ih.2.1 l (o + 1) d
          (fun hh => loopFreeFrom_mono prog o (o + 1) (hl hh) (by omega))
        cases hb : compileBlock prog fuel l (o + 1) d with
        | error e2 =>
          rw [hb] at h1
          exact h1
        | ok p =>
          obtain ⟨o2, l2⟩ := p
          rw [hb] at h1
          simp only [ResOK] at h1
          exact ⟨h1.1, h1.2⟩
    · intro l o stop hl
      by_cases hlt : stop < o
      · simp [compileBlock, if_pos hlt, ResOK]
      · simp only [compileBlock, if_neg hlt]
        have h1 := ih.1 l o hl
        cases hn : compileNext prog fuel l o with
        | error e2 =>
          rw [hn] at h1
          exact h1
        | ok p =>
          obtain ⟨o2, l2⟩ := p
          rw [hn] at h1
          simp only [ResOK] at h1
          obtain ⟨ho2, hl2⟩ := h1
          subst hl2
          have h2 := ih.2.1 l2 o2 stop
            (fun hh => loopFreeFrom_mono prog o o2 (hl hh) (by omega))
          exact ResOK_mono o o2 l2 _ (by omega) h2
    · intro l o stop hl
      by_cases hle : stop ≤ o
      · simp [compileCallRange, if_pos hle, ResOK]
      · simp only [compileCallRange, if_neg hle]
        have h1 := ih.1 l o hl
        cases hn : compileNext prog fuel l o with
        | error e2 =>
          rw [hn] at h1
          exact h1
        | ok p =>
          obtain ⟨o2, l2⟩ := p
          rw [hn] at h1
          simp only [ResOK] at h1
          obtain ⟨ho2, hl2⟩ := h1
          subst hl2
          have h2 := ih.2.2 l2 o2 stop
            (fun hh => loopFreeFrom_mono prog o o2 (hl hh) (by omega))
          exact ResOK_mono o o2 l2 _ (by omega) h2

/-!  ## Claim theorems: C2, C6, C8, C10  -/

/-- C2: the claim states MOVA converts the X/Y lanes by truncation (round
    toward zero). The emitted code uses CVTPS2DQ, which rounds to nearest
    even under the default MXCSR: at s1.x = 1.5 it writes address offset 2
    (host register value 32 = 16 * 2) where truncation yields offset 1. The
    destination-mask behaviour is as claimed (X-only leaves offset 1
    unchanged). This theorem evaluates the embedded code at the failing
    input. -/
theorem C2_mova_rounding_divergence :
    movaJit true false (.fin (3 / 2)) (.fin 0) 7 9 = (32, 9)
      ∧ truncToZero (3 / 2) = 1
      ∧ (32 : ℤ) ≠ 16 * truncToZero (3 / 2) := by
  refine ⟨?_, ?_, ?_⟩
  · simp only [movaJit, cvtps2dq, rne]
    norm_num
  · unfold truncToZero
    norm_num
  · unfold truncToZero
    norm_num

/-- C6: the claim states FLR computes floor on both host code paths. The
    SSE4.1 path (ROUNDFLOORPS) does; the fallback path (CVTPS2DQ then
    CVTDQ2PS) rounds to nearest even instead: at lane value 1.5 it produces
    2.0 while floor gives 1.0. This theorem evaluates both embedded paths at
    the failing input. -/
theorem C6_flr_fallback_divergence :
    flrJitLane true (.fin (3 / 2)) = .fin 1
      ∧ flrJitLane false (.fin (3 / 2)) = .fin 2
      ∧ (⌊(3 : ℚ) / 2⌋ : ℚ) = 1
      ∧ F32V.fin (2 : ℚ) ≠ F32V.fin (1 : ℚ) := by
  refine ⟨?_, ?_, by norm_num, by norm_num⟩
  · simp only [flrJitLane, flrLaneSSE41, if_true]
    norm_num
  · simp only [flrJitLane, flrLaneFallback, cvtdq2ps, cvtps2dq, rne, f32ofInt]
    norm_num

/-- C8: every colour component of the output vertex is replaced by
    `min(|x|, 1.0)` (then converted to f24), so it lies in [0, 1] for every
    register content, including negatives, values above 1, infinities and
    NaN (std::fmin returns the non-NaN operand, so a NaN colour becomes 1). -/
theorem C8_color_in_unit_interval (v : F32V) :
    ∃ q : ℚ, colorCommit v = .fin q ∧ 0 ≤ q ∧ q ≤ 1 := by
  cases v with
  | nan =>
    refine ⟨f24quant 1, rfl, ?_⟩
    have := f24quant_of_unit 1 (by norm_num) (by norm_num)
    exact this
  | inf s =>
    refine ⟨f24quant 1, rfl, ?_⟩
    exact f24quant_of_unit 1 (by norm_num) (by norm_num)
  | fin q =>
    refine ⟨f24quant (min |q| 1), rfl, ?_⟩
    exact f24quant_of_unit _ (le_min (abs_nonneg q) (by norm_num)) (min_le_right _ _)

/-- C10: when either compared lane is NaN, the condition-code bit computed by
    Compile_CMP is true for GT and GE (lowered to the unordered predicates
    CMP_NLE and CMP_NLT) and for NEQ (unordered), and false for EQ, LT and LE
    (ordered predicates). Stated for both condition bits, each under its own
    operator. -/
theorem C10_cmp_nan_semantics (opx opy : PicaCmpOp) (s1x s1y s2x s2y : F32V) :
    ((s1x = .nan ∨ s2x = .nan) →
      (jitCmpCond opx opy s1x s1y s2x s2y).1 = cmpNaNResult opx)
    ∧ ((s1y = .nan ∨ s2y = .nan) →
      (jitCmpCond opx opy s1x s1y s2x s2y).2 = cmpNaNResult opy) := by
  constructor
  · intro h
    exact jitCmpLane_nan opx s1x s2x h
  · intro h
    exact jitCmpLane_nan opy s1y s2y h

/-- Witness for C10 at a concrete input: lane X compares NaN under GT and the
    condition bit is true. -/
theorem C10_cmp_nan_semantics_witness :
    (F32V.nan = F32V.nan ∨ F32V.fin 0 = F32V.nan)
      ∧ (jitCmpCond .cgt .ceq .nan (.fin 0) (.fin 0) (.fin 0)).1 = cmpNaNResult .cgt :=
  ⟨Or.inl rfl,
    (C10_cmp_nan_semantics .cgt .ceq .nan (.fin 0) (.fin 0) (.fin 0)).1 (Or.inl rfl)⟩

/-- C3: the claim states SLTI computes (s1 < s2 ? 1.0 : 0.0) in every one of
    the four lanes, with each source swizzled by its own selector. The
    emitted code uses the scalar CMPSS, so only lane X holds a comparison
    result; lanes Y, Z, W are the unmodified bits of swizzled s1 ANDed with
    the bits of 1.0f (and the second source is loaded with the selector and
    negate flag of source 1). At s1 = (0, 2, 0, 0), s2 = (1, 3, 0, 0) with
    identity swizzles, lane Y should be 1.0 (2 < 3) but the emitted code
    yields bits(2.0) AND bits(1.0f) = 0. This theorem evaluates the embedded
    code and the claimed semantics at that input. -/
theorem C3_slti_lane_divergence :
    sltiJitBits idSwz ⟨0, 0x40000000, 0, 0⟩ ⟨0x3F800000, 0x40400000, 0, 0⟩
      = ⟨0x3F800000, 0, 0, 0⟩
    ∧ sltiClaimBits idSwz ⟨0, 0x40000000, 0, 0⟩ ⟨0x3F800000, 0x40400000, 0, 0⟩
      = ⟨0x3F800000, 0x3F800000, 0, 0⟩
    ∧ (0 : Nat) ≠ 0x3F800000 := by
  refine ⟨?_, ?_, by decide⟩
  · simp only [sltiJitBits, swizzleSrcBits, idSwz, getRawSelector, getNegate]
    norm_num [decodeF32, fcmpLT]
    decide
  · simp only [sltiClaimBits, swizzleSrcBits, idSwz, getRawSelector, getNegate]
    norm_num [decodeF32, fcmpLT]

/-- C1: the claim states that the JIT and the interpreter agree on every
    program and input within 2^-22 per component (exactly, outside RCP/RSQ).
    The SLTI lowering refutes this: on the program [SLTI; END] with swizzled
    sources s1 = (0, 2, 0, 0) and s2 = (1, 3, 0, 0), the interpreter
    (modelled from the spec) produces 1.0 in lane Y while the emitted JIT
    code produces the bits of 2.0 masked by the bits of 1.0f, which decode to
    0.0: a difference of 1, far above the tolerance, on an instruction that
    is not RCP/RSQ. -/
theorem C1_jit_interp_divergence :
    interpSLTI idSwz ⟨.fin 0, .fin 2, .fin 0, .fin 0⟩ ⟨.fin 1, .fin 3, .fin 0, .fin 0⟩
      = ⟨.fin 1, .fin 1, .fin 0, .fin 0⟩
    ∧ decodeF32 0x40000000 = .fin 2
    ∧ decodeF32 0x40400000 = .fin 3
    ∧ (sltiJitBits idSwz ⟨0, 0x40000000, 0, 0⟩ ⟨0x3F800000, 0x40400000, 0, 0⟩).y = 0
    ∧ decodeF32 0 = .fin 0
    ∧ epsTol < |(1 : ℚ) - 0| := by
  refine ⟨?_, ?_, ?_, ?_, ?_, ?_⟩
  · simp only [interpSLTI, interpSwizzleSrc, idSwz, getRawSelector, getNegate,
      applySelV, laneOfV]
    norm_num [fcmpLT]
  · simp only [decodeF32]
    norm_num
  · simp only [decodeF32]
    norm_num
  · simp only [sltiJitBits, swizzleSrcBits, idSwz, getRawSelector, getNegate]
    norm_num [decodeF32, fcmpLT]
    decide
  · simp only [decodeF32]
    norm_num
  · unfold epsTol
    norm_num

/-- C4 counterexample: the claim says the offset load index is reduced modulo
    the uniform bank size so it is always in range. With uniform index 95 and
    address offset 1 (MOVA leaves 16 in ADDROFFS_REG_0), the emitted load
    reads byte address 1536 = 16 * 96, the first byte past the 96-entry
    uniform bank, while the claimed modulo semantics reads address
    16 * ((95 + 1) mod 96) = 0: the effective index is out of range and the
    two addresses differ. -/
theorem C4_no_modulo_counterexample :
    jitSrcAddr false false 1 1 ⟨16, 0, 0⟩ (16 * 95) = 1536
    ∧ claimUniformAddr 95 1 = 0
    ∧ ¬ (1536 : ℤ) < 16 * 96
    ∧ (1536 : ℤ) ≠ 0 := by
  refine ⟨by decide, by decide, by decide, by decide⟩

/-- C4 (amended): for non-MAD/MADI instructions whose address-register-index
    is nonzero, the offsettable source (src1 normally, src2 for SrcInversed)
    is loaded from the base displacement plus the selected address register
    with no modulo reduction, so the effective address can leave the uniform
    bank (for every uniform index there is an offset that takes it past the
    end); index 3 adds the raw loop counter; MAD and MADI sources are never
    offset, and a zero index or a non-offsettable source loads from the plain
    displacement. -/
theorem C4_src_offset_semantics (isInv : Bool) (srcNum addrIdx : Nat)
    (regs : AddrRegs) (base : ℤ) :
    jitSrcAddr true isInv srcNum addrIdx regs base = base
    ∧ (addrIdx = 0 ∨ srcNum ≠ offsetSrcNum isInv →
        jitSrcAddr false isInv srcNum addrIdx regs base = base)
    ∧ jitSrcAddr false isInv (offsetSrcNum isInv) 1 regs base = base + regs.a0
    ∧ jitSrcAddr false isInv (offsetSrcNum isInv) 2 regs base = base + regs.a1
    ∧ jitSrcAddr false isInv (offsetSrcNum isInv) 3 regs base = base + regs.lc
    ∧ (∀ idx : Nat, idx < 96 → ∀ o : ℤ, 16 * (96 - (idx : ℤ)) ≤ o →
        jitSrcAddr false false 1 1 ⟨o, regs.a1, regs.lc⟩ (16 * (idx : ℤ))
            = 16 * (idx : ℤ) + o
          ∧ 16 * 96 ≤ 16 * (idx : ℤ) + o) := by
  refine ⟨rfl, ?_, ?_, ?_, ?_, ?_⟩
  · intro h
    rcases h with h | h
    · simp [jitSrcAddr, h]
    · simp [jitSrcAddr, h]
  · simp [jitSrcAddr]
  · simp [jitSrcAddr]
  · simp [jitSrcAddr]
  · intro idx hidx o ho
    constructor
    · simp [jitSrcAddr, offsetSrcNum]
    · omega

/-- Witness for C4 at a concrete input: uniform index 95 with address
    register 1 holding byte offset 16 loads from 16 * 96, past the bank. -/
theorem C4_src_offset_semantics_witness :
    jitSrcAddr false false 1 1 ⟨16, 0, 0⟩ (16 * ((95 : ℕ) : ℤ))
        = 16 * ((95 : ℕ) : ℤ) + 16
    ∧ 16 * 96 ≤ 16 * ((95 : ℕ) : ℤ) + 16 :=
  (C4_src_offset_semantics false 1 1 ⟨16, 0, 0⟩ 0).2.2.2.2.2 95 (by norm_num)
    16 (by norm_num)

/-- C5: for a LOOP with integer uniform {count, start, inc} (the X, Y and Z
    bytes of the uniform word w), the code emitted by Compile_LOOP runs the
    body exactly count + 1 times, initialises the loop counter to start, and
    adds inc after each iteration, so iteration j observes counter value
    start + j * inc; and Compile_Block(dest) entered at PC + 1 fetches
    exactly the offsets PC + 1 .. dest inclusive. -/
theorem C5_loop_semantics (w j pc dest : Nat)
    (hj : j < w % 256 + 1) (hpd : pc < dest) :
    (compileLoopRun w).length = w % 256 + 1
    ∧ (compileLoopRun w).getD j 0 = w / 256 % 256 + j * (w / 65536 % 256)
    ∧ blockOffsets (pc + 1) dest = List.range' (pc + 1) (dest - pc) := by
  refine ⟨?_, ?_, ?_⟩
  · simpa [compileLoopRun, loopSetup] using
      loopIters_length (w % 256 + 1) (w / 256 % 256) (w / 65536 % 256)
  · have hb : w / 256 % 256 + (w % 256 + 1) * (w / 65536 % 256) < 2 ^ 32 := by
      have h2 : w / 256 % 256 < 256 := Nat.mod_lt _ (by norm_num)
      have h4 : (w % 256 + 1) * (w / 65536 % 256) ≤ 256 * 255 := by
        apply Nat.mul_le_mul
        · have : w % 256 < 256 := Nat.mod_lt _ (by norm_num)
          omega
        · have : w / 65536 % 256 < 256 := Nat.mod_lt _ (by norm_num)
          omega
      omega
    simpa [compileLoopRun, loopSetup] using
      loopIters_getD (w % 256 + 1) (w / 256 % 256) (w / 65536 % 256) j hj hb
  · exact blockOffsets_eq_aux (dest - pc) (pc + 1) dest (by omega)

/-- Witness for C5 with i0 = {count = 4, start = 0, inc = 2} (uniform word
    0x20004 = 131076): the claimed five iterations with counter values
    0, 2, 4, 6, 8; iteration 4 observes 8 = 0 + 4 * 2. -/
theorem C5_loop_semantics_witness :
    (4 < 131076 % 256 + 1)
    ∧ (compileLoopRun 131076).length = 131076 % 256 + 1
    ∧ (compileLoopRun 131076).getD 4 0
        = 131076 / 256 % 256 + 4 * (131076 / 65536 % 256) :=
  ⟨by norm_num,
    (C5_loop_semantics 131076 4 0 1 (by norm_num) (by norm_num)).1,
    (C5_loop_semantics 131076 4 0 1 (by norm_num) (by norm_num)).2.1⟩

/-- C7: a second Setup with the same program code, swizzle table and entry
    offset is a cache hit on the XOR-composed fingerprint: the compilation
    log does not grow and the same stored entrypoint is reused; and across
    any sequence of Setup calls starting from the empty cache (process start,
    or after Shutdown cleared it), each fingerprint is compiled at most
    once. -/
theorem C7_cache_at_most_one_compile :
    (∀ code swz : List Nat, ∀ off : Nat, ∀ s : CacheState,
      (setupStep true code swz off (setupStep true code swz off s)).log
          = (setupStep true code swz off s).log
      ∧ (setupStep true code swz off (setupStep true code swz off s)).cur
          = (setupStep true code swz off s).cur)
    ∧ (∀ l : List (List Nat × List Nat × Nat), ∀ k : Nat,
        ((runSetups l emptyCache).log.count k) ≤ 1) := by
  constructor
  · intro code swz off s
    cases h : findEntry s.entries (cacheKey code swz off) with
    | some e =>
      constructor <;> simp [setupStep, h]
    | none =>
      constructor <;> simp [setupStep, h, findEntry_cons_self]
  · intro l k
    exact (runSetups_preserves_inv l emptyCache emptyCache_inv k).1

/-- C9 counterexample: the claim says the assertions fire exactly for
    destinations not strictly greater than the PC of the instruction (or for
    nested LOOPs) and never otherwise. For the one-instruction program
    [IF with dest_offset = 1] at PC = 0, the destination 1 is strictly
    greater than the PC 0 and there is no LOOP anywhere, so by the claim no
    assertion fires; yet compilation fails with the backwards-if assertion,
    because Compile_IF compares dest_offset against the already-incremented
    offset PC + 1. -/
theorem C9_pc_plus_one_counterexample :
    claimBadFlowAtB [PInstr.condIf 1 0] 0 = false
    ∧ claimBadFlowAtB [PInstr.condIf 1 0] 1 = false
    ∧ isLoopAtB [PInstr.condIf 1 0] 0 = false
    ∧ isLoopAtB [PInstr.condIf 1 0] 1 = false
    ∧ compileProgram [PInstr.condIf 1 0] 8 0 = .error .backIf := by
  refine ⟨by decide, by decide, by decide, by decide, ?_⟩
  simp [compileProgram, compileCallRange, compileNext, compileBlock, fetchAt]

/-- C9 (amended): the compile-time assertions compare the destination offset
    against the already-incremented program counter, so they reject a reached
    IF, LOOP or JMP with dest_offset ≤ PC + 1, and a LOOP met while another
    LOOP body is being compiled. Hence (i) whenever compilation fails with an
    assertion-class error, the program contains a flow instruction with
    dest_offset ≤ PC + 1 or a LOOP instruction; and (ii) for a program with
    no CALL-family instruction, at most one LOOP, and every IF/LOOP/JMP
    destination strictly greater than PC + 1, the assertions never fire: the
    only error the modelled pass can produce is fuel exhaustion, which is not
    an assertion of the code. -/
theorem C9_assertion_boundary :
    (∀ (prog : List PInstr) (fuel mainOff : Nat) (e : CErr),
      compileProgram prog fuel mainOff = .error e →
        e = .fuelOut ∨ badOrLoop prog)
    ∧ (∀ prog : List PInstr, noCallP prog → goodFlowP prog → oneLoopP prog →
        ∀ (fuel mainOff : Nat) (e : CErr),
          compileProgram prog fuel mainOff = .error e → e = .fuelOut) := by
  constructor
  · intro prog fuel mainOff e h
    unfold compileProgram at h
    cases hc : compileCallRange prog fuel false mainOff prog.length with
    | error e2 =>
      simp only [hc, Except.error.injEq] at h
      subst h
      exact (compile_err_characterization prog fuel).2.2 false mainOff
        prog.length e2 hc
    | ok p =>
      simp only [hc] at h
      exact Except.noConfusion h
  · intro prog h1 h2 h3 fuel mainOff e h
    unfold compileProgram at h
    cases hc : compileCallRange prog fuel false mainOff prog.length with
    | error e2 =>
      simp only [hc, Except.error.injEq] at h
      subst h
      have hres := (compile_no_assert prog h1 h2 h3 fuel).2.2 false mainOff
        prog.length (fun hh => Bool.noConfusion hh)
      rw [hc] at hres
      exact hres
    | ok p =>
      simp only [hc] at h
      exact Except.noConfusion h

/-- Witness for C9 at concrete programs: the first part applied to the
    program [IF dest = 0], whose compilation trips the backwards-if
    assertion; the second part applied to the single-loop program
    [LOOP dest = 2; NOP; NOP] at fuel 0, where the only reported error is
    the model's fuel exhaustion; the same program compiles cleanly with
    enough fuel. -/
theorem C9_assertion_boundary_witness :
    (CErr.backIf = CErr.fuelOut ∨ badOrLoop [PInstr.condIf 0 0])
    ∧ CErr.fuelOut = CErr.fuelOut
    ∧ compileProgram [PInstr.loopI 2, PInstr.plain, PInstr.plain] 8 0
        = .ok () := by
  refine ⟨?_, ?_, ?_⟩
  · exact (C9_assertion_boundary).1 [PInstr.condIf 0 0] 3 0 .backIf
      (by simp [compileProgram, compileCallRange, compileNext, fetchAt])
  · exact (C9_assertion_boundary).2 [PInstr.loopI 2, PInstr.plain, PInstr.plain]
      (by intro i d n; rcases i with _ | _ | _ | j <;> simp [fetchAt])
      (by intro i; rcases i with _ | _ | _ | j <;>
        simp [amendedBadFlowAtB, fetchAt])
      (by intro i j hi hj; rcases i with _ | _ | _ | i2 <;>
        rcases j with _ | _ | _ | j2 <;> simp_all [isLoopAtB, fetchAt])
      0 0 .fuelOut (by simp [compileProgram, compileCallRange])
  · simp [compileProgram, compileCallRange, compileNext, compileBlock, fetchAt]
